import Mathlib

/-!
Verification development for the G-code post-processing pipeline of the
`inkpath-pipeline` repository (module `plotter_tool/gcode_post.py`).

The Python module is shallowly embedded: every function below mirrors one
function of the source module, with machine text modelled as Lean `String`s
(lists of characters) and Python `float`s modelled as exact rationals `ℚ`
(the decimal literals the code parses are exactly representable; none of
the verified properties depends on binary rounding).  File input is
modelled by passing the file's line list to the function that would read
it; file output is modelled by the `output` field of the result record,
which the caller would write to disk.
-/

namespace GcodePost

/-- Python `str.strip()` whitespace predicate (ASCII subset). -/
def pyIsSpace (c : Char) : Bool :=
  c = ' ' || c = '\t' || c = '\n' || c = '\r' || c = Char.ofNat 11 || c = Char.ofNat 12

/-- Strip leading and trailing whitespace from a character list
(Python `str.strip()`). -/
def stripChars (cs : List Char) : List Char :=
  ((cs.dropWhile pyIsSpace).reverse.dropWhile pyIsSpace).reverse

/-- Python `line.strip()` on a string. -/
def stripStr (s : String) : String :=
  String.mk (stripChars s.toList)

/-- Numeric value of a digit list, most significant first. -/
def parseNatDigits (ds : List Char) : ℕ :=
  ds.foldl (fun a c => 10 * a + (c.toNat - 48)) 0

/-- Parse the regex fragment `-?\d+(?:\.\d+)?` at the head of the character
list, returning the exact rational value and the unconsumed rest
(the group-2 number of `AXIS_PATTERN`).  `none` when no digits follow. -/
def parseNumber (cs : List Char) : Option (ℚ × List Char) :=
  let signed : Bool × List Char :=
    match cs with
    | '-' :: rest => (true, rest)
    | _ => (false, cs)
  let ds := signed.2.takeWhile Char.isDigit
  if ds.isEmpty then none
  else
    let cs2 := signed.2.drop ds.length
    let intval : ℚ := (parseNatDigits ds : ℕ)
    let withFrac : ℚ × List Char :=
      match cs2 with
      | '.' :: cs3 =>
        let fs := cs3.takeWhile Char.isDigit
        if fs.isEmpty then (intval, cs2)
        else (intval + (parseNatDigits fs : ℕ) / (10 ^ fs.length : ℚ), cs3.drop fs.length)
      | _ => (intval, cs2)
    some (if signed.1 then -withFrac.1 else withFrac.1, withFrac.2)

/-- One attempt of `AXIS_PATTERN = ([XYZF])\s*(-?\d+(?:\.\d+)?)`
(case-insensitive) at the current position: on success returns the
upper-cased axis letter, the value, and the rest after the match. -/
def matchAxisAt (cs : List Char) : Option (Char × ℚ × List Char) :=
  match cs with
  | [] => none
  | c :: rest =>
    if c.toUpper = 'X' || c.toUpper = 'Y' || c.toUpper = 'Z' || c.toUpper = 'F' then
      match parseNumber (rest.dropWhile pyIsSpace) with
      | some vr => some (c.toUpper, vr.1, vr.2)
      | none => none
    else none

/-- Left-to-right scan over the non-overlapping matches of `AXIS_PATTERN`
(the semantics of `re.finditer`): a failed position advances by one
character, a successful match of another letter resumes after the match.
Returns the value of the first match whose letter equals `ax`.
`fuel` bounds the number of scan steps; each step consumes at least one
character, so `length + 1` fuel is always enough. -/
def findAxisAux : ℕ → List Char → Char → Option ℚ
  | 0, _, _ => none
  | _ + 1, [], _ => none
  | f + 1, c :: rest, ax =>
    match matchAxisAt (c :: rest) with
    | some lvr => if lvr.1 = ax then some lvr.2.1 else findAxisAux f lvr.2.2 ax
    | none => findAxisAux f rest ax

/-- Source `_extract_axis`: value of the first `AXIS_PATTERN` match for the
given axis letter, `None` if absent. -/
def extractAxis (line : String) (ax : Char) : Option ℚ :=
  findAxisAux (line.toList.length + 1) line.toList ax

/-- Source `_has_feedrate`: some `AXIS_PATTERN` match carries the letter F.
Because a match for another letter consumes only letter/space/digit
characters, an F match is found by `finditer` iff the first-F scan finds
it, so the same scan serves both functions. -/
def hasFeedrate (line : String) : Bool :=
  (extractAxis line 'F').isSome

/-- Source `COMMENT_PREFIXES` test: `stripped.startswith((";", "("))`. -/
def isCommentStart (cs : List Char) : Bool :=
  match cs with
  | c :: _ => c = ';' || c = '('
  | [] => false

/-- Source `_is_marker_line`: the already-stripped line equals the stripped
marker token, which must be non-empty. -/
def isMarkerLine (line : String) (markerToken : String) : Bool :=
  let t := stripStr markerToken
  !(t = "") && line = t

/-- Decimal digits of the fractional part `r/d` (invariant `r < d`),
up to 17 digits (Python's `repr` precision bound); stops when the
remainder vanishes. -/
def fracDigitsAux : ℕ → ℕ → ℕ → List Char
  | 0, _, _ => []
  | _ + 1, 0, _ => []
  | f + 1, r, d => Char.ofNat (48 + (10 * r) / d) :: fracDigitsAux f ((10 * r) % d) d

/-- Decimal rendering of a rational, standing in for Python `str(float)`
(e.g. `1000.0`).  The exact digit string of a Python float repr is not
modelled; no verified property inspects these digits. -/
def renderFloat (q : ℚ) : String :=
  let sign := if q < 0 then "-" else ""
  let n := q.num.natAbs
  let d := q.den
  let frac := fracDigitsAux 17 (n % d) d
  sign ++ toString (n / d) ++ "." ++ (if frac.isEmpty then "0" else String.mk frac)

/-- Lookup in the macro substitution context (source `macro_context` dict). -/
def ctxLookup (ctx : List (String × ℚ)) (k : String) : Option ℚ :=
  (ctx.find? (fun pr => pr.1 = k)).map Prod.snd

/-- The two brace delimiters of Python `str.format_map`. -/
def lbrace : Char := Char.ofNat 123

/-- Closing brace delimiter. -/
def rbrace : Char := Char.ofNat 125

/-- Python `template.format_map(_SafeDict(context))`: brace-delimited
placeholders are replaced by the rendered value; a missing key re-echoes
the delimited placeholder (source `_SafeDict.__missing__`); doubled braces
are literal braces.  A dangling unmatched brace (which would raise in
Python and is never produced by the configurations considered) is emitted
verbatim.  `fuel` bounds the scan; each step consumes at least one
character. -/
def formatAux : ℕ → List (String × ℚ) → List Char → List Char
  | 0, _, cs => cs
  | _ + 1, _, [] => []
  | f + 1, ctx, c :: rest =>
    if c = lbrace then
      match rest with
      | c2 :: rest2 =>
        if c2 = lbrace then lbrace :: formatAux f ctx rest2
        else
          let key := rest.takeWhile (fun x => !(x = rbrace))
          match rest.drop key.length with
          | _ :: rest3 =>
            match ctxLookup ctx (String.mk key) with
            | some v => (renderFloat v).toList ++ formatAux f ctx rest3
            | none => lbrace :: (key ++ rbrace :: formatAux f ctx rest3)
          | [] => c :: rest
      | [] => [c]
    else if c = rbrace then
      match rest with
      | c2 :: rest2 =>
        if c2 = rbrace then rbrace :: formatAux f ctx rest2
        else c :: formatAux f ctx rest
      | [] => [c]
    else c :: formatAux f ctx rest

/-- Source `_format_macro_line`. -/
def formatMacroLine (template : String) (ctx : List (String × ℚ)) : String :=
  String.mk (formatAux (template.toList.length + 1) ctx template.toList)

/-- Source `FLOAT_EPS = 1e-4`, the height-comparison tolerance. -/
def FLOAT_EPS : ℚ := 1 / 10000

/-- Source dataclass `_State`: tracked vertical position and engagement
flag (the Machine State of the specification). -/
structure MState where
  z : ℚ
  pen : Bool
deriving DecidableEq, Repr

/-- Source dataclass `JobParams` (the `input_path` field is replaced by
passing the file's lines to the consumer; `ink_mode` is the runtime
string exactly as in the source, where unsupported values are rejected
by validation). -/
structure JobParams where
  name : String
  ink_mode : String
  stroke_interval : Option Int := none
deriving DecidableEq, Repr

/-- Source dataclass `PostParams` (field `ink_macro` is named
`ink_macro_lines` here and `paper_macro` is `paper_macro_lines`;
`output_path` is dropped — output is returned, not written). -/
structure PostParams where
  writing : JobParams
  drawing : JobParams
  pen_up_z : ℚ
  pen_down_z : ℚ
  default_feedrate : ℚ
  ink_macro_lines : List String
  paper_macro_lines : List String
  macro_context : List (String × ℚ)
  marker_token : String
deriving DecidableEq, Repr

/-- Source dataclass `PostResult`, with the written file contents
(`output`) in place of `output_path`. -/
structure PostResult where
  writing_ink_times : ℕ
  drawing_ink_times : ℕ
  paper_times : ℕ
  total_lines : ℕ
  output : List String
deriving DecidableEq, Repr

/-- Engagement recomputation used at every vertical move:
`z_value >= pen_down_z - FLOAT_EPS`. -/
def penDownAt (p : PostParams) (z : ℚ) : Bool :=
  decide (p.pen_down_z - FLOAT_EPS ≤ z)

/-- The fold body of `_inject_macro`'s emission loop: each template line is
rendered, emitted, and any Z value it carries updates the Machine State
exactly as the Pen State Tracker would. -/
def macroExpandStep (p : PostParams) (acc : MState × List String) (raw : String) :
    MState × List String :=
  let line := formatMacroLine raw p.macro_context
  let s' : MState :=
    match extractAxis line 'Z' with
    | some z => { z := z, pen := penDownAt p z }
    | none => acc.1
  (s', acc.2 ++ [line])

/-- The emission loop of `_inject_macro` over the whole template. -/
def macroExpandBody (mls : List String) (p : PostParams) (s : MState) :
    MState × List String :=
  mls.foldl (macroExpandStep p) (s, [])

/-- Source `_inject_macro`: returns the Machine State after the expansion
and the chunk of lines appended to the buffer.  An empty macro is skipped
entirely (only a diagnostic is logged).  Otherwise the rendered body is
wrapped in start/end annotations; if the position after the body is not
within tolerance of `pen_up_z` one synthetic move is appended and the
position is forced to `pen_up_z`; the engagement flag is unconditionally
cleared. -/
def macroExpand (mls : List String) (p : PostParams) (s : MState) (note : String) :
    MState × List String :=
  if mls.isEmpty then (s, [])
  else
    let b := macroExpandBody mls p s
    let chunk := ("; ---- " ++ note ++ " 开始 ----") :: b.2 ++ ["; ---- " ++ note ++ " 结束 ----"]
    if FLOAT_EPS < |b.1.z - p.pen_up_z| then
      ({ z := p.pen_up_z, pen := false }, chunk ++ ["G0 Z" ++ renderFloat p.pen_up_z])
    else
      ({ b.1 with pen := false }, chunk)

/-- Python truthiness of `job.stroke_interval` (`None` and `0` are falsy). -/
def intervalTruthy : Option Int → Bool
  | some n => decide ¬(n = 0)
  | none => false

/-- The loop variables of `_process_job`: the threaded Machine State plus
`ink_counter`, `stroke_counter` and `previous_pen_down`. -/
structure JobLoop where
  st : MState
  ink : ℕ
  stroke : ℕ
  prev : Bool
deriving DecidableEq, Repr

/-- The f-string `f"{job.name} 手动蘸墨 #{ink_counter}"` of the marker
branch. -/
def manualNote (job : JobParams) (k : ℕ) : String :=
  job.name ++ " 手动蘸墨 #" ++ toString k

/-- The f-string `f"{job.name} 自动蘸墨 #{ink_counter}"` of the stroke
branch. -/
def autoNote (job : JobParams) (k : ℕ) : String :=
  job.name ++ " 自动蘸墨 #" ++ toString k

/-- One iteration of the `for raw_line in lines` loop of `_process_job`:
returns the updated loop variables and the chunk of lines this iteration
appends to the buffer. -/
def processLine (job : JobParams) (p : PostParams) (l : JobLoop) (raw : String) :
    JobLoop × List String :=
  let stripped := stripStr raw
  if job.ink_mode == "marker" && isMarkerLine stripped p.marker_token then
    let ink1 := l.ink + 1
    let note := manualNote job ink1
    let m := macroExpand p.ink_macro_lines p l.st note
    ({ st := m.1, ink := ink1, stroke := 0, prev := m.1.pen },
     ("; " ++ note) :: m.2)
  else if stripped == "" || isCommentStart stripped.toList then
    (l, [raw])
  else
    match extractAxis stripped 'Z' with
    | none => (l, [raw])
    | some z =>
      let newPen := penDownAt p z
      if l.prev && !newPen then
        let stroke1 := l.stroke + 1
        if job.ink_mode == "stroke" && intervalTruthy job.stroke_interval
            && decide (0 < stroke1)
            && decide ((stroke1 : ℤ).fmod (job.stroke_interval.getD 0) = 0) then
          let ink1 := l.ink + 1
          let note := autoNote job ink1
          let m := macroExpand p.ink_macro_lines p l.st note
          ({ st := { z := z, pen := newPen }, ink := ink1, stroke := 0, prev := newPen },
           raw :: m.2)
        else
          ({ st := { z := z, pen := newPen }, ink := l.ink, stroke := stroke1, prev := newPen },
           [raw])
      else
        ({ st := { z := z, pen := newPen }, ink := l.ink, stroke := l.stroke, prev := newPen },
         [raw])

/-- The whole loop of `_process_job`, returning the final loop variables
and the per-input-line chunks in order. -/
def processLines (job : JobParams) (p : PostParams) :
    JobLoop → List String → JobLoop × List (List String)
  | l, [] => (l, [])
  | l, raw :: rest =>
    let r1 := processLine job p l raw
    let r2 := processLines job p r1.1 rest
    (r2.1, r1.2 :: r2.2)

/-- Source `_process_job` (its call to `_read_gcode_lines` is factored out:
`lines` is the job input after `ensure_feedrate`): returns the final
Machine State, the job's ink-insertion count, and the block of output
lines the job appends to the buffer, bounded by start/end annotations. -/
def process_job (job : JobParams) (p : PostParams) (s : MState) (lines : List String) :
    MState × ℕ × List String :=
  let l0 : JobLoop := { st := s, ink := 0, stroke := 0, prev := s.pen }
  let r := processLines job p l0 lines
  (r.1.st, r.1.ink,
   ("; === " ++ job.name ++ " 开始 ===") :: r.2.flatten ++ ["; === " ++ job.name ++ " 结束 ===", ""])

/-- Source `_insert_paper_change`: with an empty paper macro nothing is
inserted (count 0, only a logged diagnostic); otherwise the macro is
expanded once under a `换纸` annotation (count 1). -/
def insertPaperChange (p : PostParams) (s : MState) : MState × ℕ × List String :=
  if p.paper_macro_lines.isEmpty then (s, 0, [])
  else
    let m := macroExpand p.paper_macro_lines p s "换纸 #1"
    (m.1, 1, "; === 换纸 ===" :: m.2 ++ [""])

/-- A non-blank non-comment line, a feed-rate candidate of
`_ensure_feedrate`. -/
def isCandidateLine (s : String) : Bool :=
  let t := stripStr s
  !(t == "" || isCommentStart t.toList)

/-- The index-collecting loop of `_ensure_feedrate`: indexes of the first
`k` candidate lines (the source breaks at two). -/
def candidateIdxsAux (k : ℕ) (idx : ℕ) : List String → List ℕ
  | [] => []
  | l :: rest =>
    if k = 0 then []
    else if isCandidateLine l then idx :: candidateIdxsAux (k - 1) (idx + 1) rest
    else candidateIdxsAux k (idx + 1) rest

/-- Indexes of the first two candidate lines (source `candidate_indexes`). -/
def candidateIdxs (lines : List String) : List ℕ :=
  candidateIdxsAux 2 0 lines

/-- Source `_ensure_feedrate`: if neither of the first two candidate lines
carries an F value, one synthetic velocity line is inserted immediately
after the first candidate; otherwise (or with no candidate at all) the
stream is returned unmodified. -/
def ensure_feedrate (lines : List String) (default_feed : ℚ) : List String :=
  let cand := candidateIdxs lines
  let hasFeed := cand.any (fun i => hasFeedrate (lines.getD i ""))
  if hasFeed || cand.isEmpty then lines
  else
    match cand with
    | [] => lines
    | i0 :: _ =>
      lines.take (i0 + 1) ++ ["G1 F" ++ renderFloat default_feed] ++ lines.drop (i0 + 1)

/-- Source `_validate_job` (the `input_path.exists()` check is a filesystem
effect, modelled by the job's lines being supplied at all; the remaining
checks are embedded in order). -/
def validate_job (job : JobParams) (marker : String) : Option String :=
  if !(job.ink_mode == "off" || job.ink_mode == "marker" || job.ink_mode == "stroke") then
    some (job.name ++ " ink_mode 不受支持：" ++ job.ink_mode)
  else if job.ink_mode == "stroke" && decide (job.stroke_interval.getD 0 ≤ 0) then
    some (job.name ++ " 需要正整数 stroke_interval")
  else if job.ink_mode == "marker" && marker == "" then
    some (job.name ++ " 选择 marker 模式但 marker_token 为空")
  else none

/-- Source `_validate_params`: height ordering first, then each job in
order against the stripped marker token.  Returns the raised error
message, `none` when validation passes (the `mkdir` of the output
directory is a filesystem effect and is not modelled). -/
def validate_params (p : PostParams) : Option String :=
  if decide (p.pen_down_z ≤ p.pen_up_z) then some "pen_down_z 必须大于 pen_up_z"
  else
    let marker := stripStr p.marker_token
    match validate_job p.writing marker with
    | some e => some e
    | none => validate_job p.drawing marker

/-- Source `post_process`, with the two input files passed as line lists
and the written artifact returned in the result.  The emptiness check of
`_read_gcode_lines` is performed where the source performs it: the
writing input before the writing job, the drawing input after the paper
change.  An `Except.error` models the raised exception — the output
artifact does not exist in that case. -/
def post_process (p : PostParams) (writingLines drawingLines : List String) :
    Except String PostResult :=
  match validate_params p with
  | some e => Except.error e
  | none =>
    if writingLines.isEmpty then Except.error (p.writing.name ++ " G-code 为空")
    else
      let s0 : MState := { z := p.pen_up_z, pen := false }
      let rw := process_job p.writing p s0 (ensure_feedrate writingLines p.default_feedrate)
      let rp := insertPaperChange p rw.1
      if drawingLines.isEmpty then Except.error (p.drawing.name ++ " G-code 为空")
      else
        let rd := process_job p.drawing p rp.1 (ensure_feedrate drawingLines p.default_feedrate)
        let buffer := rw.2.2 ++ rp.2.2 ++ rd.2.2
        Except.ok { writing_ink_times := rw.2.1, drawing_ink_times := rd.2.1,
                    paper_times := rp.2.1, total_lines := buffer.length, output := buffer }

/-- The writing phase of `post_process` as a standalone value. -/
def writingRun (p : PostParams) (wl : List String) : MState × ℕ × List String :=
  process_job p.writing p { z := p.pen_up_z, pen := false }
    (ensure_feedrate wl p.default_feedrate)

/-- The paper-change phase of `post_process`, fed the writing phase's final
Machine State. -/
def paperRun (p : PostParams) (wl : List String) : MState × ℕ × List String :=
  insertPaperChange p (writingRun p wl).1

/-- The drawing phase of `post_process`, fed the paper-change phase's final
Machine State. -/
def drawingRun (p : PostParams) (wl dl : List String) : MState × ℕ × List String :=
  process_job p.drawing p (paperRun p wl).1 (ensure_feedrate dl p.default_feedrate)

/-- The Machine State handed to the drawing job by `post_process`: the
writing job's final state threaded through the paper-change phase. -/
def stateBeforeDrawing (p : PostParams) (writingLines : List String) : MState :=
  (paperRun p writingLines).1

/-- The Pen State Tracker's view of one line, independent of macro
insertion: the new `previous_pen_down` value and whether the line
completes an engaged→disengaged transition. -/
def transStep (p : PostParams) (prev : Bool) (raw : String) : Bool × Bool :=
  let stripped := stripStr raw
  if stripped == "" || isCommentStart stripped.toList then (prev, false)
  else
    match extractAxis stripped 'Z' with
    | none => (prev, false)
    | some z =>
      let np := penDownAt p z
      (np, prev && !np)

/-- Number of completed engaged→disengaged transitions a line list
contains, starting from the given `previous_pen_down` value. -/
def countTrans (p : PostParams) : Bool → List String → ℕ
  | _, [] => 0
  | prev, raw :: rest =>
    let t := transStep p prev raw
    (if t.2 then 1 else 0) + countTrans p t.1 rest

/-- Whether a raw line triggers the marker branch of `_process_job`. -/
def markerHit (job : JobParams) (p : PostParams) (raw : String) : Bool :=
  job.ink_mode == "marker" && isMarkerLine (stripStr raw) p.marker_token

/-! ## Helper lemmas -/

/-- A non-empty macro expansion always exits disengaged with the tracked
position within tolerance of the tool-up height (the final normalization
of `_inject_macro`). -/
lemma macroExpand_normalizes (mls : List String) (p : PostParams) (s : MState)
    (note : String) (h : mls ≠ []) :
    (macroExpand mls p s note).1.pen = false ∧
      |(macroExpand mls p s note).1.z - p.pen_up_z| ≤ FLOAT_EPS := by
  cases mls with
  | nil => exact absurd rfl h
  | cons a as =>
    unfold macroExpand
    simp only [List.isEmpty_cons, Bool.false_eq_true, if_false]
    split
    · exact ⟨rfl, by simp [FLOAT_EPS]⟩
    · next hc => exact ⟨rfl, le_of_not_lt hc⟩

/-- The marker branch of `_process_job`, in closed form: the raw line is
replaced by the per-insertion annotation followed by the macro expansion,
the ink counter advances, the stroke counter resets, and
`previous_pen_down` is re-read from the post-expansion Machine State. -/
lemma processLine_hit (job : JobParams) (p : PostParams) (l : JobLoop) (raw : String)
    (h : markerHit job p raw = true) :
    processLine job p l raw =
      ({ st := (macroExpand p.ink_macro_lines p l.st (manualNote job (l.ink + 1))).1,
         ink := l.ink + 1, stroke := 0,
         prev := (macroExpand p.ink_macro_lines p l.st (manualNote job (l.ink + 1))).1.pen },
       ("; " ++ manualNote job (l.ink + 1)) ::
         (macroExpand p.ink_macro_lines p l.st (manualNote job (l.ink + 1))).2) := by
  have h' : (job.ink_mode == "marker" && isMarkerLine (stripStr raw) p.marker_token) = true := h
  simp only [processLine, h', if_true]

/-- In marker mode, a line that does not pass the whole-line marker test is
emitted unchanged as the whole of its chunk, and the ink counter does not
move (the stroke branch is unreachable because the mode is not `stroke`). -/
lemma processLine_marker_pass (job : JobParams) (p : PostParams) (l : JobLoop) (raw : String)
    (hmode : job.ink_mode = "marker")
    (h : isMarkerLine (stripStr raw) p.marker_token = false) :
    (processLine job p l raw).1.ink = l.ink ∧ (processLine job p l raw).2 = [raw] := by
  simp only [processLine, hmode, h, Bool.and_false, Bool.false_eq_true, if_false]
  split
  · exact ⟨rfl, rfl⟩
  · split
    · exact ⟨rfl, rfl⟩
    · split
      · split
        · simp_all
        · exact ⟨rfl, rfl⟩
      · exact ⟨rfl, rfl⟩

/-- Any line that does not hit the marker branch is emitted first in its
chunk; whatever follows it is either nothing or one macro expansion
(stroke trigger). -/
lemma processLine_head (job : JobParams) (p : PostParams) (l : JobLoop) (raw : String)
    (h : markerHit job p raw = false) :
    ∃ tail, (processLine job p l raw).2 = raw :: tail ∧
      (tail = [] ∨
        tail = (macroExpand p.ink_macro_lines p l.st (autoNote job (l.ink + 1))).2) := by
  have h' : (job.ink_mode == "marker" && isMarkerLine (stripStr raw) p.marker_token) = false := h
  simp only [processLine, h', Bool.false_eq_true, if_false]
  split
  · exact ⟨[], rfl, Or.inl rfl⟩
  · split
    · exact ⟨[], rfl, Or.inl rfl⟩
    · split
      · split
        · exact ⟨_, rfl, Or.inr rfl⟩
        · exact ⟨[], rfl, Or.inl rfl⟩
      · exact ⟨[], rfl, Or.inl rfl⟩

/-- Python `%` (floored modulus) of a positive counter by a positive
threshold it does not exceed vanishes exactly when the counter equals the
threshold. -/
lemma fmod_pos_eq_zero_iff (a N : ℤ) (hN : 0 < N) (h1 : 0 < a) (h2 : a ≤ N) :
    (a.fmod N = 0) ↔ (a = N) := by
  rw [Int.fmod_eq_emod _ (le_of_lt hN)]
  constructor
  · intro h
    have hd : N ∣ a := Int.dvd_of_emod_eq_zero h
    have hle := Int.le_of_dvd h1 hd
    omega
  · intro h
    rw [h]
    exact Int.emod_self

/-- Outside marker mode, `previous_pen_down` evolves exactly as the Pen
State Tracker's `transStep` prescribes. -/
lemma processLine_stroke_prev (job : JobParams) (p : PostParams) (l : JobLoop) (raw : String)
    (hm : job.ink_mode = "stroke") :
    (processLine job p l raw).1.prev = (transStep p l.prev raw).1 := by
  have hsm : (job.ink_mode == "marker") = false := by rw [hm]; rfl
  simp only [processLine, transStep, hsm, Bool.false_and, Bool.false_eq_true, if_false]
  cases h1 : (stripStr raw == "" || isCommentStart (stripStr raw).toList) with
  | true => simp [h1]
  | false =>
    simp only [h1, Bool.false_eq_true, if_false]
    cases hz : extractAxis (stripStr raw) 'Z' with
    | none => simp [hz]
    | some z =>
      simp only [hz]
      cases hp : (l.prev && !penDownAt p z) with
      | false => simp [hp]
      | true =>
        simp only [hp, if_true]
        split <;> rfl

/-- In stroke mode the counters follow the transition signal: a
non-transition line leaves them alone; the transition that brings the
counter to the threshold bumps the ink counter and resets the stroke
counter; an earlier transition merely increments the stroke counter. -/
lemma processLine_stroke_counts (job : JobParams) (p : PostParams) (l : JobLoop) (raw : String)
    (N : ℤ) (hm : job.ink_mode = "stroke") (hi : job.stroke_interval = some N) (hN : 0 < N) :
    ((transStep p l.prev raw).2 = false →
        (processLine job p l raw).1.ink = l.ink ∧ (processLine job p l raw).1.stroke = l.stroke)
    ∧ ((transStep p l.prev raw).2 = true → l.stroke + 1 = N.toNat →
        (processLine job p l raw).1.ink = l.ink + 1 ∧ (processLine job p l raw).1.stroke = 0)
    ∧ ((transStep p l.prev raw).2 = true → l.stroke + 1 < N.toNat →
        (processLine job p l raw).1.ink = l.ink ∧
          (processLine job p l raw).1.stroke = l.stroke + 1) := by
  have hsm : (job.ink_mode == "marker") = false := by rw [hm]; rfl
  have hss : (job.ink_mode == "stroke") = true := by rw [hm]; rfl
  have htruthy : intervalTruthy (some N) = true := by
    simp only [intervalTruthy, decide_eq_true_eq]
    omega
  have hpos : (0 < l.stroke + 1) := Nat.succ_pos _
  simp only [processLine, transStep, hsm, Bool.false_and, Bool.false_eq_true, if_false, hss,
    htruthy, Bool.true_and, hi, Option.getD_some]
  cases h1 : (stripStr raw == "" || isCommentStart (stripStr raw).toList) with
  | true => simp [h1]
  | false =>
    simp only [h1, Bool.false_eq_true, if_false]
    cases hz : extractAxis (stripStr raw) 'Z' with
    | none => simp [hz]
    | some z =>
      simp only [hz]
      cases hp : (l.prev && !penDownAt p z) with
      | false => simp [hp]
      | true =>
        simp only [hp, if_true]
        refine ⟨by simp, ?_, ?_⟩
        · intro _ hEq
          have hfz : ((l.stroke : ℤ) + 1).fmod N = 0 :=
            (fmod_pos_eq_zero_iff _ _ hN (by omega) (by omega)).2 (by omega)
          simp [hfz, hpos, htruthy]
        · intro _ hLt
          have hfz : ¬ (((l.stroke : ℤ) + 1).fmod N = 0) := by
            rw [fmod_pos_eq_zero_iff _ _ hN (by omega) (by omega)]
            omega
          simp [hfz, hpos, htruthy]

/-- The stroke-counter invariant of `_process_job` in stroke mode with
positive threshold: over any line list the ink counter advances by the
number of completed transitions divided by the threshold, and the stroke
counter ends at the remainder. -/
lemma processLines_stroke_inv (job : JobParams) (p : PostParams) (N : ℤ)
    (hm : job.ink_mode = "stroke") (hi : job.stroke_interval = some N) (hN : 0 < N) :
    ∀ (lines : List String) (l : JobLoop), l.stroke < N.toNat →
      (processLines job p l lines).1.ink =
          l.ink + (l.stroke + countTrans p l.prev lines) / N.toNat ∧
      (processLines job p l lines).1.stroke =
          (l.stroke + countTrans p l.prev lines) % N.toNat := by
  have hNt : 0 < N.toNat := by omega
  intro lines
  induction lines with
  | nil =>
    intro l hl
    simp [processLines, countTrans, Nat.mod_eq_of_lt hl, Nat.div_eq_of_lt hl]
  | cons raw rest ih =>
    intro l hl
    have hprev := processLine_stroke_prev job p l raw hm
    have hcounts := processLine_stroke_counts job p l raw N hm hi hN
    have hPL : (processLines job p l (raw :: rest)).1
        = (processLines job p (processLine job p l raw).1 rest).1 := rfl
    have hCT : countTrans p l.prev (raw :: rest)
        = (if (transStep p l.prev raw).2 then 1 else 0)
            + countTrans p (transStep p l.prev raw).1 rest := rfl
    set ct := countTrans p (transStep p l.prev raw).1 rest with hct
    rw [hPL]
    cases ht : (transStep p l.prev raw).2 with
    | false =>
      rw [ht] at hCT
      simp only [Bool.false_eq_true, if_false, Nat.zero_add] at hCT
      rw [hCT]
      obtain ⟨hink, hstroke⟩ := hcounts.1 ht
      have ihl := ih (processLine job p l raw).1 (by rw [hstroke]; exact hl)
      rw [hprev, hink, hstroke] at ihl
      exact ihl
    | true =>
      rw [ht] at hCT
      simp only [if_true] at hCT
      rw [hCT]
      rcases Nat.lt_or_ge (l.stroke + 1) N.toNat with hlt2 | hge
      · obtain ⟨hink, hstroke⟩ := hcounts.2.2 ht hlt2
        have ihl := ih (processLine job p l raw).1 (by rw [hstroke]; exact hlt2)
        rw [hprev, hink, hstroke] at ihl
        have h1 : l.stroke + (1 + ct) = (l.stroke + 1) + ct := by omega
        rw [h1]
        exact ihl
      · have heq : l.stroke + 1 = N.toNat := by omega
        obtain ⟨hink, hstroke⟩ := hcounts.2.1 ht heq
        have ihl := ih (processLine job p l raw).1 (by rw [hstroke]; exact hNt)
        rw [hprev, hink, hstroke] at ihl
        have h2 : l.stroke + (1 + ct) = ct + N.toNat := by omega
        rw [h2, Nat.add_div_right _ hNt, Nat.add_mod_right]
        refine ⟨?_, ?_⟩
        · rw [ihl.1]
          have h3 : 0 + ct = ct := Nat.zero_add ct
          rw [h3]
          omega
        · rw [ihl.2]
          rw [Nat.zero_add]

/-- When no line of a job hits the marker branch, keeping only the first
line of every per-line chunk (each chunk starts with the raw line, by
`processLine_head`) reproduces the input line list exactly. -/
lemma processLines_originals (job : JobParams) (p : PostParams) :
    ∀ (lines : List String) (l : JobLoop),
      (∀ raw ∈ lines, markerHit job p raw = false) →
      ((processLines job p l lines).2.map (fun c => c.take 1)).flatten = lines := by
  intro lines
  induction lines with
  | nil => intro l _; rfl
  | cons raw rest ih =>
    intro l hall
    have h0 : markerHit job p raw = false := hall raw (List.mem_cons_self raw rest)
    obtain ⟨tail, hchunk, _⟩ := processLine_head job p l raw h0
    have hPL : (processLines job p l (raw :: rest)).2
        = (processLine job p l raw).2
            :: (processLines job p (processLine job p l raw).1 rest).2 := rfl
    rw [hPL]
    simp only [List.map_cons, List.flatten_cons, hchunk, List.take_succ_cons, List.take_zero]
    rw [ih (processLine job p l raw).1 (fun r hr => hall r (List.mem_cons_of_mem raw hr))]
    rfl

/-- The head of the candidate-index list is the first non-blank non-comment
line of the input, shifted by the running index. -/
lemma candidateIdxsAux_head :
    ∀ (lines : List String) (k idx i0 : ℕ) (rest2 : List ℕ),
      candidateIdxsAux k idx lines = i0 :: rest2 →
      idx ≤ i0 ∧ i0 - idx < lines.length ∧
        isCandidateLine (lines.getD (i0 - idx) "") = true ∧
        ∀ j < i0 - idx, isCandidateLine (lines.getD j "") = false := by
  intro lines
  induction lines with
  | nil =>
    intro k idx i0 rest2 h
    simp [candidateIdxsAux] at h
  | cons l rest ih =>
    intro k idx i0 rest2 h
    by_cases hk : k = 0
    · simp [candidateIdxsAux, hk] at h
    · by_cases hc : isCandidateLine l = true
      · have hi0 : idx = i0 := by
          simp [candidateIdxsAux, hk, hc] at h
          exact h.1
        subst hi0
        refine ⟨le_refl idx, by simp, by simpa using hc, ?_⟩
        intro j hj
        omega
      · have h' : candidateIdxsAux k (idx + 1) rest = i0 :: rest2 := by
          simpa [candidateIdxsAux, hk, hc] using h
        obtain ⟨h1, h2, h3, h4⟩ := ih k (idx + 1) i0 rest2 h'
        have hstep : i0 - idx = (i0 - (idx + 1)) + 1 := by omega
        refine ⟨by omega, ?_, ?_, ?_⟩
        · rw [hstep]
          simp only [List.length_cons]
          omega
        · rw [hstep]
          simpa using h3
        · intro j hj
          cases j with
          | zero =>
            simpa using Bool.not_eq_true _ ▸ hc
          | succ j' =>
            have hj' : j' < i0 - (idx + 1) := by omega
            simpa using h4 j' hj'

/-- The success path of `post_process`, in closed form: validation passed
and both inputs are non-empty, so the result is the three phase blocks in
order together with their counters. -/
lemma post_process_ok (p : PostParams) (wl dl : List String)
    (hv : validate_params p = none) (hw : wl ≠ []) (hd : dl ≠ []) :
    post_process p wl dl = Except.ok
      { writing_ink_times := (writingRun p wl).2.1,
        drawing_ink_times := (drawingRun p wl dl).2.1,
        paper_times := (paperRun p wl).2.1,
        total_lines :=
          ((writingRun p wl).2.2 ++ (paperRun p wl).2.2 ++ (drawingRun p wl dl).2.2).length,
        output := (writingRun p wl).2.2 ++ (paperRun p wl).2.2 ++ (drawingRun p wl dl).2.2 } := by
  have hw' : wl.isEmpty = false := by
    cases wl with
    | nil => exact absurd rfl hw
    | cons a as => rfl
  have hd' : dl.isEmpty = false := by
    cases dl with
    | nil => exact absurd rfl hd
    | cons a as => rfl
  simp only [post_process, hv, hw', hd', Bool.false_eq_true, if_false, writingRun, paperRun,
    drawingRun]

/-! ## Concrete configurations for witnesses and counterexamples -/

/-- A job with ink mode `off`. -/
def offJob (nm : String) : JobParams :=
  { name := nm, ink_mode := "off" }

/-- A minimal valid configuration: tool-up 0, tool-down 5, both macros one
line long, marker token `INK`. -/
def okParams : PostParams :=
  { writing := offJob "写字", drawing := offJob "绘画",
    pen_up_z := 0, pen_down_z := 5, default_feedrate := 1000,
    ink_macro_lines := ["G0 X1"], paper_macro_lines := ["G0 X2"],
    macro_context := [], marker_token := "INK" }

/-- `okParams` with an empty paper macro list. -/
def noPaperParams : PostParams :=
  { okParams with paper_macro_lines := [] }

/-- `okParams` with a marker-mode writing job. -/
def markerParams : PostParams :=
  { okParams with writing := { name := "写字", ink_mode := "marker" } }

/-- A stroke-mode job with threshold 2. -/
def strokeJob2 : JobParams :=
  { name := "写字", ink_mode := "stroke", stroke_interval := some 2 }

/-- A stroke-mode job with threshold 1. -/
def strokeJob1 : JobParams :=
  { name := "写字", ink_mode := "stroke", stroke_interval := some 1 }

/-! ## Claim theorems

The Batteries rational-number operations are sealed against unfolding;
re-opening them lets `decide` evaluate the embedding on the concrete
configurations above. -/

unseal Rat.add Rat.sub Rat.mul Rat.inv Rat.ofScientific

/-- C4: for every macro expansion (a non-empty template list — an empty
macro is skipped without expanding), whatever vertical moves the
template lines contain, the Machine State afterwards is disengaged with
position within tolerance `FLOAT_EPS` of the tool-up height; and exactly
one synthetic move-to-tool-up line is appended precisely when the
position after the body was out of tolerance, in which case the position
is forced to exactly the tool-up height. -/
theorem C4_macro_normalization (mls : List String) (p : PostParams) (s : MState)
    (note : String) (h : mls ≠ []) :
    (macroExpand mls p s note).1.pen = false ∧
    |(macroExpand mls p s note).1.z - p.pen_up_z| ≤ FLOAT_EPS ∧
    (if FLOAT_EPS < |(macroExpandBody mls p s).1.z - p.pen_up_z| then
        (macroExpand mls p s note).2 =
          (("; ---- " ++ note ++ " 开始 ----") :: (macroExpandBody mls p s).2
              ++ ["; ---- " ++ note ++ " 结束 ----"]) ++ ["G0 Z" ++ renderFloat p.pen_up_z]
          ∧ (macroExpand mls p s note).1.z = p.pen_up_z
      else
        (macroExpand mls p s note).2 =
          ("; ---- " ++ note ++ " 开始 ----") :: (macroExpandBody mls p s).2
            ++ ["; ---- " ++ note ++ " 结束 ----"]) := by
  cases mls with
  | nil => exact absurd rfl h
  | cons a as =>
    by_cases hC : FLOAT_EPS < |(macroExpandBody (a :: as) p s).1.z - p.pen_up_z|
    · simp only [macroExpand, List.isEmpty_cons, Bool.false_eq_true, if_false, if_pos hC]
      exact ⟨by trivial, by simp [FLOAT_EPS], by trivial, by trivial⟩
    · simp only [macroExpand, List.isEmpty_cons, Bool.false_eq_true, if_false, if_neg hC]
      exact ⟨by trivial, le_of_not_lt hC, by trivial⟩

/-- Witness for C4 at a concrete expansion whose body ends out of
tolerance (one template line moving to Z5 under tool-up 0). -/
theorem C4_macro_normalization_witness :
    (macroExpand ["G1 Z5"] okParams { z := 0, pen := false } "n").1.pen = false ∧
    |(macroExpand ["G1 Z5"] okParams { z := 0, pen := false } "n").1.z - okParams.pen_up_z|
        ≤ FLOAT_EPS ∧
    (if FLOAT_EPS <
        |(macroExpandBody ["G1 Z5"] okParams { z := 0, pen := false }).1.z - okParams.pen_up_z| then
        (macroExpand ["G1 Z5"] okParams { z := 0, pen := false } "n").2 =
          (("; ---- " ++ "n" ++ " 开始 ----") ::
              (macroExpandBody ["G1 Z5"] okParams { z := 0, pen := false }).2
              ++ ["; ---- " ++ "n" ++ " 结束 ----"]) ++ ["G0 Z" ++ renderFloat okParams.pen_up_z]
          ∧ (macroExpand ["G1 Z5"] okParams { z := 0, pen := false } "n").1.z = okParams.pen_up_z
      else
        (macroExpand ["G1 Z5"] okParams { z := 0, pen := false } "n").2 =
          ("; ---- " ++ "n" ++ " 开始 ----") ::
              (macroExpandBody ["G1 Z5"] okParams { z := 0, pen := false }).2
            ++ ["; ---- " ++ "n" ++ " 结束 ----"]) :=
  C4_macro_normalization ["G1 Z5"] okParams { z := 0, pen := false } "n" (by decide)

/-- C1 counterexample: with an empty paper macro list, a writing job that
ends engaged (its input is one pen-down move `G1 Z5`) hands the drawing
job an engaged Machine State away from tool-up height, so the drawing
job does not start at tool-up/disengaged. -/
theorem C1_counterexample :
    (stateBeforeDrawing noPaperParams ["G1 Z5"]).pen = true ∧
    ¬ (stateBeforeDrawing noPaperParams ["G1 Z5"]
        = { z := noPaperParams.pen_up_z, pen := false }) := by
  decide

/-- C1 amended: the writing job always starts from the freshly created
state (tool-up, disengaged) by construction of `post_process`; the
drawing job starts disengaged and within tolerance of tool-up height
whenever the paper macro list is non-empty, but with an empty paper
macro list it starts from the writing job's final state unchanged. -/
theorem C1_job_start_state (p : PostParams) (wl : List String) :
    (p.paper_macro_lines ≠ [] →
        (stateBeforeDrawing p wl).pen = false ∧
        |(stateBeforeDrawing p wl).z - p.pen_up_z| ≤ FLOAT_EPS) ∧
    (p.paper_macro_lines = [] → stateBeforeDrawing p wl = (writingRun p wl).1) := by
  constructor
  · intro h
    have h' : p.paper_macro_lines.isEmpty = false := by
      cases hq : p.paper_macro_lines with
      | nil => exact absurd hq h
      | cons a as => rfl
    unfold stateBeforeDrawing paperRun insertPaperChange
    simp only [h', Bool.false_eq_true, if_false]
    exact macroExpand_normalizes _ p _ _ h
  · intro h
    unfold stateBeforeDrawing paperRun insertPaperChange
    simp [h]

/-- Witness for C1's amended statement, at a non-empty paper macro
(first part) and an empty one (second part). -/
theorem C1_job_start_state_witness :
    ((stateBeforeDrawing okParams ["G1 Z5"]).pen = false ∧
      |(stateBeforeDrawing okParams ["G1 Z5"]).z - okParams.pen_up_z| ≤ FLOAT_EPS) ∧
    stateBeforeDrawing noPaperParams ["G1 Z5"] = (writingRun noPaperParams ["G1 Z5"]).1 :=
  ⟨(C1_job_start_state okParams ["G1 Z5"]).1 (by decide),
   (C1_job_start_state noPaperParams ["G1 Z5"]).2 (by decide)⟩

/-- C10: in marker mode with an empty configured ink macro list, a
whole-line marker match still advances the ink counter and emits the
per-insertion annotation, but nothing else — no macro body, no macro
start/end annotations, no tool-up correction — and the Machine State is
left exactly as it was (the engagement flag is not cleared). -/
theorem C10_empty_macro_marker (job : JobParams) (p : PostParams) (l : JobLoop) (raw : String)
    (hmode : job.ink_mode = "marker") (hempty : p.ink_macro_lines = [])
    (htok : stripStr p.marker_token ≠ "") (heq : stripStr raw = stripStr p.marker_token) :
    processLine job p l raw =
      ({ st := l.st, ink := l.ink + 1, stroke := 0, prev := l.st.pen },
       ["; " ++ manualNote job (l.ink + 1)]) := by
  have hhit : markerHit job p raw = true := by
    simp [markerHit, isMarkerLine, hmode, heq, htok]
  rw [processLine_hit job p l raw hhit, hempty]
  rfl

/-- Witness for C10 at an engaged state: the flag survives the insertion. -/
theorem C10_empty_macro_marker_witness :
    processLine { name := "写字", ink_mode := "marker" }
        { okParams with ink_macro_lines := [] }
        { st := { z := 5, pen := true }, ink := 0, stroke := 3, prev := true } " INK " =
      ({ st := { z := 5, pen := true }, ink := 1, stroke := 0, prev := true },
       ["; " ++ manualNote { name := "写字", ink_mode := "marker" } 1]) :=
  C10_empty_macro_marker { name := "写字", ink_mode := "marker" }
    { okParams with ink_macro_lines := [] }
    { st := { z := 5, pen := true }, ink := 0, stroke := 3, prev := true } " INK "
    (by decide) (by decide) (by decide) (by decide)

/-- C5: in marker mode, a line whose trimmed content equals the (trimmed,
non-empty) marker token triggers exactly one ink insertion replacing the
line at its position (annotation plus macro expansion, the raw line
itself not emitted), while a line that merely contains the token as a
proper substring triggers no insertion and passes through unchanged. -/
theorem C5_marker_policy (job : JobParams) (p : PostParams) (l : JobLoop) (raw : String)
    (hmode : job.ink_mode = "marker") :
    ((stripStr p.marker_token ≠ "" → stripStr raw = stripStr p.marker_token →
        (processLine job p l raw).1.ink = l.ink + 1 ∧
        (processLine job p l raw).2 =
          ("; " ++ manualNote job (l.ink + 1)) ::
            (macroExpand p.ink_macro_lines p l.st (manualNote job (l.ink + 1))).2))
    ∧ ((stripStr p.marker_token).toList <:+: (stripStr raw).toList →
        stripStr raw ≠ stripStr p.marker_token →
        (processLine job p l raw).1.ink = l.ink ∧ (processLine job p l raw).2 = [raw]) := by
  constructor
  · intro htok heq
    have hhit : markerHit job p raw = true := by
      simp [markerHit, isMarkerLine, hmode, heq, htok]
    rw [processLine_hit job p l raw hhit]
    exact ⟨rfl, rfl⟩
  · intro hsub hne
    have hmiss : isMarkerLine (stripStr raw) p.marker_token = false := by
      simp [isMarkerLine, hne]
    exact processLine_marker_pass job p l raw hmode hmiss

/-- Witness for C5: the exact token ` INK ` (trimmed) triggers, the line
`G1 XINKY` containing the token as a proper substring passes through. -/
theorem C5_marker_policy_witness :
    ((processLine markerParams.writing markerParams
        { st := { z := 0, pen := false }, ink := 0, stroke := 0, prev := false } " INK ").1.ink
        = 0 + 1 ∧
      (processLine markerParams.writing markerParams
        { st := { z := 0, pen := false }, ink := 0, stroke := 0, prev := false } " INK ").2 =
        ("; " ++ manualNote markerParams.writing (0 + 1)) ::
          (macroExpand markerParams.ink_macro_lines markerParams { z := 0, pen := false }
            (manualNote markerParams.writing (0 + 1))).2) ∧
    ((processLine markerParams.writing markerParams
        { st := { z := 0, pen := false }, ink := 0, stroke := 0, prev := false } "G1 XINKY").1.ink
        = 0 ∧
      (processLine markerParams.writing markerParams
        { st := { z := 0, pen := false }, ink := 0, stroke := 0, prev := false } "G1 XINKY").2 =
        ["G1 XINKY"]) :=
  ⟨(C5_marker_policy markerParams.writing markerParams
      { st := { z := 0, pen := false }, ink := 0, stroke := 0, prev := false } " INK "
      (by decide)).1 (by decide) (by decide),
   (C5_marker_policy markerParams.writing markerParams
      { st := { z := 0, pen := false }, ink := 0, stroke := 0, prev := false } "G1 XINKY"
      (by decide)).2 (by decide) (by decide)⟩

/-- C3: for a stroke-mode job with positive threshold N, an input whose
completed engaged→disengaged transition count (from the job's entry
state) is exactly N produces exactly one ink insertion and leaves the
stroke counter at 0; and the line that completes the N-th transition
emits itself immediately followed by the macro expansion, with the ink
counter bumped and the stroke counter reset right there. -/
theorem C3_stroke_threshold :
    (∀ (job : JobParams) (p : PostParams) (s : MState) (lines : List String) (N : ℤ),
        job.ink_mode = "stroke" → job.stroke_interval = some N → 0 < N →
        countTrans p s.pen lines = N.toNat →
        (process_job job p s lines).2.1 = 1 ∧
        (processLines job p { st := s, ink := 0, stroke := 0, prev := s.pen } lines).1.stroke = 0)
    ∧ (∀ (job : JobParams) (p : PostParams) (l : JobLoop) (raw : String) (z : ℚ) (N : ℤ),
        job.ink_mode = "stroke" → job.stroke_interval = some N → 0 < N →
        (stripStr raw == "" || isCommentStart (stripStr raw).toList) = false →
        extractAxis (stripStr raw) 'Z' = some z →
        l.prev = true → penDownAt p z = false →
        l.stroke + 1 = N.toNat →
        (processLine job p l raw).2 =
            raw :: (macroExpand p.ink_macro_lines p l.st (autoNote job (l.ink + 1))).2
          ∧ (processLine job p l raw).1.ink = l.ink + 1
          ∧ (processLine job p l raw).1.stroke = 0) := by
  constructor
  · intro job p s lines N hm hi hN hct
    have hNt : 0 < N.toNat := by omega
    have hinv := processLines_stroke_inv job p N hm hi hN lines
      { st := s, ink := 0, stroke := 0, prev := s.pen } hNt
    rw [hct] at hinv
    constructor
    · show (processLines job p { st := s, ink := 0, stroke := 0, prev := s.pen } lines).1.ink = 1
      rw [hinv.1]
      simp [Nat.div_self hNt]
    · rw [hinv.2]
      simp [Nat.mod_self]
  · intro job p l raw z N hm hi hN hnb hz hprev hpen hcnt
    have hsm : (job.ink_mode == "marker") = false := by rw [hm]; rfl
    have hss : (job.ink_mode == "stroke") = true := by rw [hm]; rfl
    have htruthy : intervalTruthy (some N) = true := by
      simp only [intervalTruthy, decide_eq_true_eq]
      omega
    have hfz : ((l.stroke : ℤ) + 1).fmod N = 0 :=
      (fmod_pos_eq_zero_iff _ _ hN (by omega) (by omega)).2 (by omega)
    have hp : (l.prev && !penDownAt p z) = true := by rw [hprev, hpen]; rfl
    have hpos : (0 < l.stroke + 1) := Nat.succ_pos _
    simp only [processLine, hsm, Bool.false_and, Bool.false_eq_true, if_false, hnb, hz, hp,
      if_true, hss, hi, Option.getD_some, htruthy, Bool.true_and]
    simp [hfz, hpos]

/-- Witness for C3: threshold 2 met by exactly two transitions (first
part), and the concrete trigger step at threshold 1 (second part). -/
theorem C3_stroke_threshold_witness :
    ((process_job strokeJob2 okParams { z := 0, pen := false }
        ["G1 Z5", "G1 Z0", "G1 Z5", "G1 Z0"]).2.1 = 1
      ∧ (processLines strokeJob2 okParams
          { st := { z := 0, pen := false }, ink := 0, stroke := 0,
            prev := (MState.mk 0 false).pen }
          ["G1 Z5", "G1 Z0", "G1 Z5", "G1 Z0"]).1.stroke = 0)
    ∧ ((processLine strokeJob1 okParams
          { st := { z := 5, pen := true }, ink := 0, stroke := 0, prev := true } "G1 Z0").2 =
            "G1 Z0" :: (macroExpand okParams.ink_macro_lines okParams { z := 5, pen := true }
              (autoNote strokeJob1 (0 + 1))).2
        ∧ (processLine strokeJob1 okParams
            { st := { z := 5, pen := true }, ink := 0, stroke := 0, prev := true } "G1 Z0").1.ink
            = 0 + 1
        ∧ (processLine strokeJob1 okParams
            { st := { z := 5, pen := true }, ink := 0, stroke := 0, prev := true } "G1 Z0").1.stroke
            = 0) :=
  ⟨C3_stroke_threshold.1 strokeJob2 okParams { z := 0, pen := false }
      ["G1 Z5", "G1 Z0", "G1 Z5", "G1 Z0"] 2 (by decide) (by decide) (by decide) (by decide),
   C3_stroke_threshold.2 strokeJob1 okParams
      { st := { z := 5, pen := true }, ink := 0, stroke := 0, prev := true } "G1 Z0" 0 1
      (by decide) (by decide) (by decide) (by decide) (by decide) (by decide) (by decide)
      (by decide)⟩

/-- C2 counterexample: in marker mode a matched marker line is consumed —
it does not occur anywhere in the job's output block (the writing phase
of a run of `markerParams` on the one-line input `INK`), so no removal
of inserted lines can reproduce the raw input, which contains it. -/
theorem C2_counterexample :
    ¬ ("INK" ∈ (writingRun markerParams ["INK"]).2.2) := by
  decide

/-- C2 amended: every line that does not hit the marker branch opens its
own chunk, followed only by inserted material (nothing, or one macro
expansion); a marker hit replaces the line by the annotation plus the
macro expansion; consequently, whenever no input line is marker-matched
— in particular in `off` and `stroke` modes — keeping the first line of
every chunk reproduces the raw input exactly, and the job block is those
chunks between the start/end annotations.  In marker mode with a match
the reproduced sequence is the input with the matched line removed. -/
theorem C2_roundtrip :
    (∀ (job : JobParams) (p : PostParams) (l : JobLoop) (raw : String),
        markerHit job p raw = false →
        ∃ tail, (processLine job p l raw).2 = raw :: tail ∧
          (tail = [] ∨
            tail = (macroExpand p.ink_macro_lines p l.st (autoNote job (l.ink + 1))).2))
    ∧ (∀ (job : JobParams) (p : PostParams) (l : JobLoop) (raw : String),
        markerHit job p raw = true →
        (processLine job p l raw).2 =
          ("; " ++ manualNote job (l.ink + 1)) ::
            (macroExpand p.ink_macro_lines p l.st (manualNote job (l.ink + 1))).2)
    ∧ (∀ (job : JobParams) (p : PostParams) (s : MState) (lines : List String),
        (∀ raw ∈ lines, markerHit job p raw = false) →
        ((processLines job p { st := s, ink := 0, stroke := 0, prev := s.pen } lines).2.map
            (fun c => c.take 1)).flatten = lines
        ∧ (process_job job p s lines).2.2 =
            ("; === " ++ job.name ++ " 开始 ===")
              :: (processLines job p { st := s, ink := 0, stroke := 0, prev := s.pen }
                    lines).2.flatten
              ++ ["; === " ++ job.name ++ " 结束 ===", ""]) := by
  refine ⟨fun job p l raw h => processLine_head job p l raw h, ?_, ?_⟩
  · intro job p l raw h
    rw [processLine_hit job p l raw h]
  · intro job p s lines hall
    exact ⟨processLines_originals job p lines _ hall, rfl⟩

/-- Witness for C2's amended statement: a no-marker stroke-mode run whose
chunk heads rebuild the input, a pass-through line, and one marker hit. -/
theorem C2_roundtrip_witness :
    (∃ tail, (processLine strokeJob2 okParams
        { st := { z := 0, pen := false }, ink := 0, stroke := 0, prev := false } "G1 Z5").2 =
          "G1 Z5" :: tail ∧
        (tail = [] ∨
          tail = (macroExpand okParams.ink_macro_lines okParams { z := 0, pen := false }
            (autoNote strokeJob2 (0 + 1))).2))
    ∧ (processLine markerParams.writing markerParams
          { st := { z := 0, pen := false }, ink := 0, stroke := 0, prev := false } "INK").2 =
        ("; " ++ manualNote markerParams.writing (0 + 1)) ::
          (macroExpand markerParams.ink_macro_lines markerParams { z := 0, pen := false }
            (manualNote markerParams.writing (0 + 1))).2
    ∧ ((processLines strokeJob2 okParams
          { st := { z := 0, pen := false }, ink := 0, stroke := 0,
            prev := (MState.mk 0 false).pen } ["G1 Z5", "G1 Z0"]).2.map
          (fun c => c.take 1)).flatten = ["G1 Z5", "G1 Z0"] :=
  ⟨C2_roundtrip.1 strokeJob2 okParams
      { st := { z := 0, pen := false }, ink := 0, stroke := 0, prev := false } "G1 Z5"
      (by decide),
   C2_roundtrip.2.1 markerParams.writing markerParams
      { st := { z := 0, pen := false }, ink := 0, stroke := 0, prev := false } "INK"
      (by decide),
   (C2_roundtrip.2.2 strokeJob2 okParams (MState.mk 0 false) ["G1 Z5", "G1 Z0"]
      (by decide)).1⟩

/-- C6: when at least one of the (at most two) candidate lines exists and
none of them carries an F value, the feed-rate ensurer inserts exactly
one synthetic velocity line with the default velocity immediately after
the first candidate — the first non-blank non-comment line — growing the
stream by exactly one line; when a candidate carries an F value, or no
candidate exists, the stream is returned unmodified. -/
theorem C6_feedrate_ensurer (lines : List String) (f : ℚ) :
    (candidateIdxs lines = [] → ensure_feedrate lines f = lines)
    ∧ ((∃ i ∈ candidateIdxs lines, hasFeedrate (lines.getD i "") = true) →
        ensure_feedrate lines f = lines)
    ∧ (∀ i0 rest2, candidateIdxs lines = i0 :: rest2 →
        (∀ i ∈ candidateIdxs lines, hasFeedrate (lines.getD i "") = false) →
        ensure_feedrate lines f
            = lines.take (i0 + 1) ++ ["G1 F" ++ renderFloat f] ++ lines.drop (i0 + 1)
          ∧ (ensure_feedrate lines f).length = lines.length + 1
          ∧ i0 < lines.length
          ∧ isCandidateLine (lines.getD i0 "") = true
          ∧ ∀ j < i0, isCandidateLine (lines.getD j "") = false) := by
  refine ⟨?_, ?_, ?_⟩
  · intro h
    simp [ensure_feedrate, h]
  · rintro ⟨i, hmem, hf⟩
    have hany : (candidateIdxs lines).any (fun i => hasFeedrate (lines.getD i "")) = true :=
      List.any_eq_true.mpr ⟨i, hmem, hf⟩
    simp only [ensure_feedrate]
    rw [hany, Bool.true_or]
    rfl
  · intro i0 rest2 hcand hnofeed
    have hany : (candidateIdxs lines).any (fun i => hasFeedrate (lines.getD i "")) = false := by
      rw [List.any_eq_false]
      intro i hi
      rw [hnofeed i hi]
      simp
    obtain ⟨hle, hlt, hcan, hprior⟩ := candidateIdxsAux_head lines 2 0 i0 rest2 hcand
    simp only [Nat.sub_zero] at hlt hcan hprior
    have heqr : ensure_feedrate lines f
        = lines.take (i0 + 1) ++ ["G1 F" ++ renderFloat f] ++ lines.drop (i0 + 1) := by
      rw [ensure_feedrate]
      rw [hcand] at hany ⊢
      simp only [hany, List.isEmpty_cons, Bool.or_self, Bool.false_eq_true, if_false]
    refine ⟨heqr, ?_, hlt, hcan, hprior⟩
    rw [heqr]
    simp only [List.length_append, List.length_take, List.length_drop, List.length_cons,
      List.length_nil]
    omega

/-- Witness for C6 at a three-line stream whose two candidates carry no F
value: one synthetic line is inserted after index 1. -/
theorem C6_feedrate_ensurer_witness :
    ensure_feedrate ["; c", "G1 X1", "G1 Y2"] 1000
        = (["; c", "G1 X1", "G1 Y2"].take 2 ++ ["G1 F" ++ renderFloat 1000]
            ++ ["; c", "G1 X1", "G1 Y2"].drop 2)
      ∧ (ensure_feedrate ["; c", "G1 X1", "G1 Y2"] 1000).length
          = (["; c", "G1 X1", "G1 Y2"] : List String).length + 1
      ∧ 1 < (["; c", "G1 X1", "G1 Y2"] : List String).length
      ∧ isCandidateLine ((["; c", "G1 X1", "G1 Y2"] : List String).getD 1 "") = true
      ∧ ∀ j < 1, isCandidateLine ((["; c", "G1 X1", "G1 Y2"] : List String).getD j "") = false :=
  (C6_feedrate_ensurer ["; c", "G1 X1", "G1 Y2"] 1000).2.2 1 [2] (by decide) (by decide)

/-- C7: a configuration whose tool-down height is not strictly greater
than the tool-up height fails validation with the corresponding error,
and more generally every validation failure and every missing/empty
input aborts the run with an error — in which case no result (and hence
no output artifact) is produced; a successful run presupposes that all
these checks passed. -/
theorem C7_validation_aborts (p : PostParams) (wl dl : List String) :
    (p.pen_down_z ≤ p.pen_up_z →
        post_process p wl dl = Except.error "pen_down_z 必须大于 pen_up_z")
    ∧ (∀ e, validate_params p = some e → post_process p wl dl = Except.error e)
    ∧ (validate_params p = none → wl = [] →
        post_process p wl dl = Except.error (p.writing.name ++ " G-code 为空"))
    ∧ (validate_params p = none → wl ≠ [] → dl = [] →
        post_process p wl dl = Except.error (p.drawing.name ++ " G-code 为空"))
    ∧ (∀ r, post_process p wl dl = Except.ok r →
        validate_params p = none ∧ wl ≠ [] ∧ dl ≠ []) := by
  refine ⟨?_, ?_, ?_, ?_, ?_⟩
  · intro h
    have hv : validate_params p = some "pen_down_z 必须大于 pen_up_z" := by
      simp [validate_params, h]
    simp [post_process, hv]
  · intro e he
    simp [post_process, he]
  · intro hv hw
    subst hw
    simp [post_process, hv]
  · intro hv hw hd
    subst hd
    have hw' : wl.isEmpty = false := by
      cases wl with
      | nil => exact absurd rfl hw
      | cons a as => rfl
    simp [post_process, hv, hw']
  · intro r hr
    cases hv : validate_params p with
    | some e => simp [post_process, hv] at hr
    | none =>
      cases wl with
      | nil => simp [post_process, hv] at hr
      | cons a as =>
        cases dl with
        | nil => simp [post_process, hv] at hr
        | cons b bs =>
          exact ⟨rfl, by simp, by simp⟩

/-- Witness for C7 at a configuration with tool-down 0 ≤ tool-up 1. -/
theorem C7_validation_aborts_witness :
    post_process { okParams with pen_up_z := 1, pen_down_z := 0 } ["G1 X1"] ["G1 X1"]
      = Except.error "pen_down_z 必须大于 pen_up_z" :=
  (C7_validation_aborts { okParams with pen_up_z := 1, pen_down_z := 0 }
    ["G1 X1"] ["G1 X1"]).1 (by norm_num)

/-- C8: a successful run records exactly one paper-macro insertion when
the configured paper macro list is non-empty, and exactly zero when it
is empty (the run still succeeds). -/
theorem C8_paper_count (p : PostParams) (wl dl : List String)
    (hv : validate_params p = none) (hw : wl ≠ []) (hd : dl ≠ []) :
    ∃ r, post_process p wl dl = Except.ok r ∧
      r.paper_times = (if p.paper_macro_lines = [] then 0 else 1) := by
  refine ⟨_, post_process_ok p wl dl hv hw hd, ?_⟩
  show (paperRun p wl).2.1 = _
  unfold paperRun insertPaperChange
  by_cases hp : p.paper_macro_lines = []
  · simp [hp]
  · have hp' : p.paper_macro_lines.isEmpty = false := by
      cases hq : p.paper_macro_lines with
      | nil => exact absurd hq hp
      | cons a as => rfl
    simp [hp', hp]

/-- Witness for C8 on concrete runs with a non-empty and an empty paper
macro list. -/
theorem C8_paper_count_witness :
    (∃ r, post_process okParams ["G1 Z5"] ["G1 Z0"] = Except.ok r ∧
      r.paper_times = (if okParams.paper_macro_lines = [] then 0 else 1))
    ∧ (∃ r, post_process noPaperParams ["G1 Z5"] ["G1 Z0"] = Except.ok r ∧
      r.paper_times = (if noPaperParams.paper_macro_lines = [] then 0 else 1)) :=
  ⟨C8_paper_count okParams ["G1 Z5"] ["G1 Z0"] (by decide) (by decide) (by decide),
   C8_paper_count noPaperParams ["G1 Z5"] ["G1 Z0"] (by decide) (by decide) (by decide)⟩

/-- C9: on every successful run the output buffer is exactly the writing
job's block, followed by the paper-change block, followed by the drawing
job's block — every writing line precedes every paper-change line, which
precedes every drawing line. -/
theorem C9_phase_ordering (p : PostParams) (wl dl : List String)
    (hv : validate_params p = none) (hw : wl ≠ []) (hd : dl ≠ []) :
    ∃ r, post_process p wl dl = Except.ok r ∧
      r.output = (writingRun p wl).2.2 ++ (paperRun p wl).2.2 ++ (drawingRun p wl dl).2.2 :=
  ⟨_, post_process_ok p wl dl hv hw hd, rfl⟩

/-- Witness for C9 on a concrete successful run. -/
theorem C9_phase_ordering_witness :
    ∃ r, post_process okParams ["G1 Z5"] ["G1 Z0"] = Except.ok r ∧
      r.output = (writingRun okParams ["G1 Z5"]).2.2 ++ (paperRun okParams ["G1 Z5"]).2.2
        ++ (drawingRun okParams ["G1 Z5"] ["G1 Z0"]).2.2 :=
  C9_phase_ordering okParams ["G1 Z5"] ["G1 Z0"] (by decide) (by decide) (by decide)

end GcodePost
